import Mathlib

/-!
# A verification model of the wtop monitor (`wtop.py`)

This file gives a shallow embedding of the data pipeline and interaction
state machine of the wtop terminal monitor, and settles the frozen claims
about it.  Python strings are modelled as `List Char`; Python floats are
modelled as rationals (`ℚ`), so arithmetic in the model is exact where the
source performs IEEE arithmetic; CSV reading, the terminal toolkit and the
two external providers are the external boundary, their outputs appear as
explicit inputs of the modelled functions.
-/

namespace Wtop

/-- Python strings are modelled as lists of characters. -/
abbrev Str := List Char

/-! ## Numeric coercion (`_to_float`, `_to_float_bandwidth`) -/

/-- Value of a list of ASCII digit characters read in base 10
(the digit-string case of Python `int`/`float` parsing). -/
def digitsToNat (s : Str) : Nat :=
  s.foldl (fun n c => 10 * n + (c.toNat - 48)) 0

/-- Python `str.strip()`: drop whitespace from both ends. -/
def pyStrip (s : Str) : Str :=
  ((s.dropWhile Char.isWhitespace).reverse.dropWhile Char.isWhitespace).reverse

/-- Magnitude part of the model of Python `float(str)`: decimal digits with at
most one point and at least one digit.  Exponent notation, `inf`/`nan` and
digit-group underscores are accepted by Python but are outside this model;
none of them occurs in the provider output the repository consumes. -/
def pyFloatMag (s : Str) : Option ℚ :=
  let intPart := s.takeWhile Char.isDigit
  let rest := s.dropWhile Char.isDigit
  match rest with
  | [] => if intPart.isEmpty then none else some (mkRat (digitsToNat intPart) 1)
  | '.' :: frac =>
      if frac.all Char.isDigit && (!intPart.isEmpty || !frac.isEmpty) then
        some (mkRat (digitsToNat (intPart ++ frac)) (10 ^ frac.length))
      else none
  | _ => none

/-- Optionally signed magnitude of the `float(str)` model. -/
def pyFloatSigned (s : Str) : Option ℚ :=
  match s with
  | '-' :: rest => (pyFloatMag rest).map (fun q => -q)
  | '+' :: rest => pyFloatMag rest
  | _ => pyFloatMag s

/-- Model of Python `float(str)`: surrounding whitespace is stripped, then an
optionally signed decimal literal is parsed; `none` models the `ValueError`
that the source catches. -/
def pyFloat (s : Str) : Option ℚ :=
  pyFloatSigned (pyStrip s)

/-- Model of Python `int(str)` (used for row indices and sort-column numbers):
strip, optional sign, then digits only. -/
def pyInt (s : Str) : Option Int :=
  match pyStrip s with
  | '-' :: ds => if !ds.isEmpty && ds.all Char.isDigit then some (-(digitsToNat ds : Int)) else none
  | '+' :: ds => if !ds.isEmpty && ds.all Char.isDigit then some (digitsToNat ds : Int) else none
  | ds => if !ds.isEmpty && ds.all Char.isDigit then some (digitsToNat ds : Int) else none

/-- Single pass behind `pySplitWs`: `acc` holds the current token reversed. -/
def pySplitWsAux : Str → Str → List Str
  | [], acc => if acc.isEmpty then [] else [acc.reverse]
  | c :: rest, acc =>
    if c.isWhitespace then
      if acc.isEmpty then pySplitWsAux rest [] else acc.reverse :: pySplitWsAux rest []
    else pySplitWsAux rest (c :: acc)

/-- Model of argument-free Python `str.split()`: maximal runs of non-whitespace
characters, never producing empty tokens. -/
def pySplitWs (s : Str) : List Str := pySplitWsAux s []

/-- The test `value in (None, '', '0', 0)` restricted to string inputs, where it
holds exactly for `""` and `"0"` (a string never equals `None` or the int `0`). -/
def isZeroSentinel (s : Str) : Bool := s == [] || s == ['0']

/-- `_to_float` from the source: sentinel values go to `0.0`; otherwise a direct
`float` parse is attempted; on failure every character other than digits, `.`
and `-` is stripped and the parse is retried; any remaining failure gives `0.0`.
(`ch.isdigit()` is modelled on its ASCII fragment, the only one the data uses.) -/
def _to_float (value : Str) : ℚ :=
  if isZeroSentinel value then 0
  else
    match pyFloat value with
    | some q => q
    | none =>
      let cleaned := value.filter (fun ch => ch.isDigit || ch == '.' || ch == '-')
      if cleaned.isEmpty then 0
      else
        match pyFloat cleaned with
        | some q => q
        | none => 0

/-- `_to_float_bandwidth` from the source: sentinel values go to `0.0`; if the
string contains a space it is replaced by its first `split()` token (an empty
token list raises `IndexError`, caught by the `except` giving `0.0`); the token
is then parsed directly by `float`, with `0.0` on failure — there is no
character-stripping fallback in this function. -/
def _to_float_bandwidth (value : Str) : ℚ :=
  if isZeroSentinel value then 0
  else
    if (' ' : Char) ∈ value then
      match pySplitWs value with
      | [] => 0
      | t :: _ =>
        match pyFloat t with
        | some q => q
        | none => 0
    else
      match pyFloat value with
      | some q => q
      | none => 0

/-! ## Metric aggregation (`parse_csv_stats_aggregated`,
`parse_csv_stats_backend_aggregated`) -/

/-- A row of the Stats Provider's tabular output as delivered by
`csv.DictReader`: each field holds the raw cell string, `none` when the column
is absent from the payload (CSV framing is the external boundary of the model). -/
structure RawRow where
  hostname : Option Str
  roles : Option Str
  roleAlt : Option Str
  cpu : Option Str
  ops : Option Str
  readsPs : Option Str
  writesPs : Option Str
  rlat : Option Str
  wlat : Option Str
  l6recv : Option Str
  l6sent : Option Str
  obsUpload : Option Str
  obsDownload : Option Str
  rdmaRecv : Option Str
  rdmaSent : Option Str
deriving DecidableEq

/-- The numeric part of one `node_data` dict (and of an aggregated row). -/
structure Metrics where
  cpu : ℚ
  ops : ℚ
  readsPs : ℚ
  writesPs : ℚ
  rlat : ℚ
  wlat : ℚ
  l6recv : ℚ
  l6sent : ℚ
  obsUpload : ℚ
  obsDownload : ℚ
  rdmaRecv : ℚ
  rdmaSent : ℚ
deriving DecidableEq

/-- `row.get(col, 0)` feeds `_to_float` either the cell string or the integer
default `0`, which `_to_float` maps to `0.0`. -/
def toFloatField (o : Option Str) : ℚ :=
  match o with
  | none => 0
  | some s => _to_float s

/-- `row.get(col, 0)` through `_to_float_bandwidth`. -/
def toBandwidthField (o : Option Str) : ℚ :=
  match o with
  | none => 0
  | some s => _to_float_bandwidth s

/-- Building one `node_data` record: plain metrics through `_to_float`,
bandwidth-style metrics through `_to_float_bandwidth`, as in the source. -/
def coerceRow (r : RawRow) : Metrics :=
  { cpu := toFloatField r.cpu
    ops := toFloatField r.ops
    readsPs := toFloatField r.readsPs
    writesPs := toFloatField r.writesPs
    rlat := toFloatField r.rlat
    wlat := toFloatField r.wlat
    l6recv := toBandwidthField r.l6recv
    l6sent := toBandwidthField r.l6sent
    obsUpload := toBandwidthField r.obsUpload
    obsDownload := toBandwidthField r.obsDownload
    rdmaRecv := toBandwidthField r.rdmaRecv
    rdmaSent := toBandwidthField r.rdmaSent }

def unknownStr : Str := "unknown".data

/-- `row.get('Hostname', 'unknown')`. -/
def rowHost (r : RawRow) : Str := r.hostname.getD unknownStr

/-- `row.get('Roles', row.get('role', 'unknown'))`. -/
def rowRole (r : RawRow) : Str := r.roles.getD (r.roleAlt.getD unknownStr)

/-- `host_key = f"{hostname}-{role}"` of the backend parser. -/
def backendKey (r : RawRow) : Str := rowHost r ++ '-' :: rowRole r

/-- Append `v` to the group of key `k`, creating the group at the end on first
sight — the insertion-order behaviour of a Python dict used as a multimap. -/
def addToGroup {β : Type} (gs : List (Str × List β)) (k : Str) (v : β) :
    List (Str × List β) :=
  match gs with
  | [] => [(k, [v])]
  | (k', vs) :: rest =>
    if k' = k then (k', vs ++ [v]) :: rest
    else (k', vs) :: addToGroup rest k v

/-- The grouping loop shared by both aggregating parsers: one pass over the
rows, keyed by `key`, storing `val` of each row. -/
def groupRowsBy {β : Type} (key : RawRow → Str) (val : RawRow → β)
    (rows : List RawRow) : List (Str × List β) :=
  rows.foldl (fun gs r => addToGroup gs (key r) (val r)) []

def zeroMetrics : Metrics := ⟨0, 0, 0, 0, 0, 0, 0, 0, 0, 0, 0, 0⟩

/-- Body of the accumulation loop: every numeric metric of the node is added to
the running aggregate — the summed ones and the to-be-averaged ones alike. -/
def addMetrics (agg node : Metrics) : Metrics :=
  ⟨agg.cpu + node.cpu, agg.ops + node.ops, agg.readsPs + node.readsPs,
   agg.writesPs + node.writesPs, agg.rlat + node.rlat, agg.wlat + node.wlat,
   agg.l6recv + node.l6recv, agg.l6sent + node.l6sent,
   agg.obsUpload + node.obsUpload, agg.obsDownload + node.obsDownload,
   agg.rdmaRecv + node.rdmaRecv, agg.rdmaSent + node.rdmaSent⟩

/-- The averaging epilogue: for CPU% and the two latencies the running sum is
divided by the row count, but only when it is strictly positive
(`if aggregated[key] > 0`). -/
def averageStep (agg : Metrics) (n : Nat) : Metrics :=
  { agg with
    cpu := if agg.cpu > 0 then agg.cpu / (n : ℚ) else agg.cpu
    rlat := if agg.rlat > 0 then agg.rlat / (n : ℚ) else agg.rlat
    wlat := if agg.wlat > 0 then agg.wlat / (n : ℚ) else agg.wlat }

/-- Aggregation of one host group: zero-initialised sums over every row,
then the guarded averaging step (`node_count > 0` always holds here). -/
def aggregateGroup (nodes : List Metrics) : Metrics :=
  let agg := nodes.foldl addMetrics zeroMetrics
  if nodes.length > 0 then averageStep agg nodes.length else agg

/-- `parse_csv_stats_aggregated` after `csv.DictReader`: group the rows by
`Hostname`, coerce each row, and reduce every (necessarily non-empty) group;
the result models the insertion-ordered `hosts_data` dict. -/
def parse_csv_stats_aggregated (rows : List RawRow) : List (Str × Metrics) :=
  (groupRowsBy rowHost coerceRow rows).filterMap
    (fun g => if g.2.isEmpty then none else some (g.1, aggregateGroup g.2))

/-- An aggregated backend row: the metrics plus the `BaseHostname` and `Role`
taken from the group's first node. -/
structure BackendSummary where
  base : Str
  role : Str
  metrics : Metrics
deriving DecidableEq

/-- `parse_csv_stats_backend_aggregated` after `csv.DictReader`: identical to
the client parser except that the grouping key is `hostname + "-" + role` and
the first node's base hostname and role are carried on the summary. -/
def parse_csv_stats_backend_aggregated (rows : List RawRow) :
    List (Str × BackendSummary) :=
  (groupRowsBy backendKey (fun r => (rowHost r, rowRole r, coerceRow r)) rows).filterMap
    (fun g =>
      match g.2 with
      | [] => none
      | v0 :: _ => some (g.1, ⟨v0.1, v0.2.1, aggregateGroup (g.2.map (fun v => v.2.2))⟩))

/-- Lookup in an insertion-ordered dict modelled as an association list. -/
def lookupKey {β : Type} (l : List (Str × β)) (k : Str) : Option β :=
  (l.find? (fun p => p.1 == k)).map (fun p => p.2)

/-- Appending a trace of values to an optional existing group (used to state
the characterisation of the grouping loop). -/
def mergeOpt {β : Type} : Option (List β) → List β → Option (List β)
  | some vs, l => some (vs ++ l)
  | none, [] => none
  | none, v :: l => some (v :: l)

/-- Reduction of one backend group: `none` on an empty node list, else the
summary carrying the first node's base hostname and role. -/
def backendReduce (vs : List (Str × Str × Metrics)) : Option BackendSummary :=
  match vs with
  | [] => none
  | v0 :: _ => some ⟨v0.1, v0.2.1, aggregateGroup (vs.map (fun v => v.2.2))⟩

/-- The rows the client parser groups under hostname `k`. -/
def clientGroup (rows : List RawRow) (k : Str) : List RawRow :=
  rows.filter (fun r => rowHost r == k)

/-- The rows the backend parser groups under host-role key `k`. -/
def backendGroup (rows : List RawRow) (k : Str) : List RawRow :=
  rows.filter (fun r => backendKey r == k)

/-- One summed metric of the client aggregation path equals the plain sum of
its coerced values over the rows of the group. -/
def SummedClientOk (f : Metrics → ℚ) : Prop :=
  ∀ (rows : List RawRow) (k : Str),
    (lookupKey (parse_csv_stats_aggregated rows) k).map f =
      if clientGroup rows k = [] then none
      else some (((clientGroup rows k).map (fun r => f (coerceRow r))).sum)

/-- One summed metric of the backend aggregation path equals the plain sum of
its coerced values over the rows of the group. -/
def SummedBackendOk (f : Metrics → ℚ) : Prop :=
  ∀ (rows : List RawRow) (k : Str),
    (lookupKey (parse_csv_stats_backend_aggregated rows) k).map (fun s => f s.metrics) =
      if backendGroup rows k = [] then none
      else some (((backendGroup rows k).map (fun r => f (coerceRow r))).sum)

/-- One averaged metric of the client aggregation path equals sum over the
group divided by the group size, provided the running sum is nonnegative. -/
def AveragedClientOk (f : Metrics → ℚ) : Prop :=
  ∀ (rows : List RawRow) (k : Str) (m : Metrics),
    lookupKey (parse_csv_stats_aggregated rows) k = some m →
    0 ≤ ((clientGroup rows k).map (fun r => f (coerceRow r))).sum →
    f m = ((clientGroup rows k).map (fun r => f (coerceRow r))).sum /
      ((clientGroup rows k).length : ℚ)

/-- One averaged metric of the backend aggregation path equals sum over the
group divided by the group size, provided the running sum is nonnegative. -/
def AveragedBackendOk (f : Metrics → ℚ) : Prop :=
  ∀ (rows : List RawRow) (k : Str) (s : BackendSummary),
    lookupKey (parse_csv_stats_backend_aggregated rows) k = some s →
    0 ≤ ((backendGroup rows k).map (fun r => f (coerceRow r))).sum →
    f s.metrics = ((backendGroup rows k).map (fun r => f (coerceRow r))).sum /
      ((backendGroup rows k).length : ℚ)

/-- Host `A` of the specification's aggregation scenario. -/
def aHost : Str := "A".data

/-- Scenario row: host `A`, CPU% 20, Ops/s 100, every other column absent. -/
def scnRow1 : RawRow :=
  ⟨some aHost, none, none, some ("20".data), some ("100".data),
   none, none, none, none, none, none, none, none, none, none⟩

/-- Scenario row: host `A`, CPU% 40, Ops/s 300, every other column absent. -/
def scnRow2 : RawRow :=
  ⟨some aHost, none, none, some ("40".data), some ("300".data),
   none, none, none, none, none, none, none, none, none, none⟩

/-- The two-row scenario payload for host `A`. -/
def scnRows : List RawRow := [scnRow1, scnRow2]

/-- A row whose CPU% cell is the negative string `-5` — the kind of input on
which the `> 0` averaging guard diverges from a plain mean. -/
def negCpuRow : RawRow :=
  ⟨some aHost, none, none, some ("-5".data),
   none, none, none, none, none, none, none, none, none, none, none⟩

/-- Two copies of the negative-CPU row: a group whose CPU sum is negative. -/
def negCpuRows : List RawRow := [negCpuRow, negCpuRow]

/-! ## Drill-down rows and the totals row (`calculate_node_totals`) -/

/-- One parsed drill-down row (`parse_node_details_csv` /
`parse_backend_node_details_csv` output): a node id, a hostname, the backend
role when present, and the coerced numeric metrics in the source's field
order.  Parsed rows always carry a node id, so the `'node' not in node`
partition used for the totals row is empty on this data. -/
structure NodeRow where
  node : Str
  hostname : Str
  role : Option Str
  writesPs : ℚ
  write : ℚ
  wlat : ℚ
  readsPs : ℚ
  read : ℚ
  rlat : ℚ
  ops : ℚ
  cpu : ℚ
  l6recv : ℚ
  l6sent : ℚ
  obsUpload : ℚ
  obsDownload : ℚ
  rdmaRecv : ℚ
  rdmaSent : ℚ
deriving DecidableEq

/-- The numeric totals dict of `calculate_node_totals`; the `node` and
`hostname` keys are skipped by the loop, and the backend `role` string never
contributes because of the `isinstance` guard. -/
structure NodeTotals where
  writesPs : ℚ
  write : ℚ
  wlat : ℚ
  readsPs : ℚ
  read : ℚ
  rlat : ℚ
  ops : ℚ
  cpu : ℚ
  l6recv : ℚ
  l6sent : ℚ
  obsUpload : ℚ
  obsDownload : ℚ
  rdmaRecv : ℚ
  rdmaSent : ℚ
deriving DecidableEq

def zeroNodeTotals : NodeTotals := ⟨0, 0, 0, 0, 0, 0, 0, 0, 0, 0, 0, 0, 0, 0⟩

/-- Body of the totals loop: every numeric field is added to the running
totals. -/
def addNodeRow (t : NodeTotals) (nd : NodeRow) : NodeTotals :=
  ⟨t.writesPs + nd.writesPs, t.write + nd.write, t.wlat + nd.wlat,
   t.readsPs + nd.readsPs, t.read + nd.read, t.rlat + nd.rlat,
   t.ops + nd.ops, t.cpu + nd.cpu, t.l6recv + nd.l6recv, t.l6sent + nd.l6sent,
   t.obsUpload + nd.obsUpload, t.obsDownload + nd.obsDownload,
   t.rdmaRecv + nd.rdmaRecv, t.rdmaSent + nd.rdmaSent⟩

/-- `calculate_node_totals`: every numeric key is summed over the node rows,
then CPU% is replaced by the maximum CPU% of the rows and the two latencies
are divided by the row count; an empty node list yields no totals (`{}`). -/
def calculate_node_totals (node_details : List NodeRow) : Option NodeTotals :=
  match node_details with
  | [] => none
  | n0 :: rest =>
    let sums := (n0 :: rest).foldl addNodeRow zeroNodeTotals
    let n : ℚ := ((n0 :: rest).length : ℚ)
    some { sums with
      cpu := (rest.map (fun nd => nd.cpu)).foldl max n0.cpu
      rlat := sums.rlat / n
      wlat := sums.wlat / n }

/-! ## Backend group-key resolution (drill-down / `merge_data`) -/

/-- The group-key splitting performed by `drill_down_to_host` and `merge_data`
in backend mode: when the key contains `'-'` and splits into at least two
parts, the base hostname is the `'-'`-join of all parts but the last and the
role is the last part; otherwise the key is used as hostname with no role. -/
def resolve_backend_group_key (hostname : Str) : Str × Option Str :=
  if ('-' : Char) ∈ hostname then
    let parts := hostname.splitOn '-'
    if 2 ≤ parts.length then
      (List.intercalate ['-'] parts.dropLast, some (parts.getLastD []))
    else (hostname, none)
  else (hostname, none)

/-- The bandwidth cell `"3 B/s"`. -/
def bw3 : Str := "3 B/s".data

/-- A bandwidth cell whose leading token parses only through `_to_float`'s
character-stripping fallback. -/
def bw3x : Str := "3x B/s".data

/-- A backend-mode row with a base hostname that itself contains `'-'` and the
role `DRIVES` (the drill-down scenario of the specification). -/
def backendScnRow : RawRow :=
  ⟨some ("host-X".data), some ("DRIVES".data), none, none, none, none, none,
   none, none, none, none, none, none, none, none⟩

/-! ## View and interaction state machine -/

inductive ViewMode
  | main
  | nodeDetails
deriving DecidableEq

inductive ClusterMode
  | client
  | backend
deriving DecidableEq

def hostnameStr : Str := "Hostname".data

def opsStr : Str := "Ops/s".data

/-- Keys of the `available_metrics` dict, in insertion order. -/
def availableMetricsKeys : List Str :=
  [hostnameStr, "CPU%".data, opsStr, "Reads/s".data, "Writes/s".data,
   "Read Latency(µs)".data, "Write Latency(µs)".data, "L6 Recv".data,
   "L6 Sent".data, "OBS Upload".data, "OBS Download".data, "RDMA Recv".data,
   "RDMA Sent".data]

/-- Keys present in every aggregated host dict (the `sample_host_data`
membership test of `merge_data`); the model's dicts have the fixed catalog
shape built by the parsers. -/
def hostDictKeys : List Str :=
  hostnameStr :: ["CPU%".data, opsStr, "Reads/s".data, "Writes/s".data,
   "Read Latency(µs)".data, "Write Latency(µs)".data, "L6 Recv".data,
   "L6 Sent".data, "OBS Upload".data, "OBS Download".data, "RDMA Recv".data,
   "RDMA Sent".data]

/-- Keys present in every drill-down node dict (the `sample_node_data`
membership test of `merge_data`). -/
def nodeDictKeys : List Str :=
  "node".data :: "hostname".data :: ["Writes/s".data, "Write".data,
   "Write Latency(µs)".data, "Reads/s".data, "Read".data,
   "Read Latency(µs)".data, opsStr, "CPU%".data, "L6 Recv".data,
   "L6 Sent".data, "OBS Upload".data, "OBS Download".data, "RDMA Recv".data,
   "RDMA Sent".data]

/-- `data.get(metric_name, 0)` on an aggregated host dict, on its numeric
keys — the only sort keys the program can produce (`Hostname` is never set as
a sort column, so its string value is outside the numeric model). -/
def Metrics.get (m : Metrics) (name : Str) : ℚ :=
  if name = "CPU%".data then m.cpu
  else if name = opsStr then m.ops
  else if name = "Reads/s".data then m.readsPs
  else if name = "Writes/s".data then m.writesPs
  else if name = "Read Latency(µs)".data then m.rlat
  else if name = "Write Latency(µs)".data then m.wlat
  else if name = "L6 Recv".data then m.l6recv
  else if name = "L6 Sent".data then m.l6sent
  else if name = "OBS Upload".data then m.obsUpload
  else if name = "OBS Download".data then m.obsDownload
  else if name = "RDMA Recv".data then m.rdmaRecv
  else if name = "RDMA Sent".data then m.rdmaSent
  else 0

/-- `node.get(metric_name, 0)` on a drill-down node dict, numeric keys. -/
def NodeRow.get (nd : NodeRow) (name : Str) : ℚ :=
  if name = "Writes/s".data then nd.writesPs
  else if name = "Write".data then nd.write
  else if name = "Write Latency(µs)".data then nd.wlat
  else if name = "Reads/s".data then nd.readsPs
  else if name = "Read".data then nd.read
  else if name = "Read Latency(µs)".data then nd.rlat
  else if name = opsStr then nd.ops
  else if name = "CPU%".data then nd.cpu
  else if name = "L6 Recv".data then nd.l6recv
  else if name = "L6 Sent".data then nd.l6sent
  else if name = "OBS Upload".data then nd.obsUpload
  else if name = "OBS Download".data then nd.obsDownload
  else if name = "RDMA Recv".data then nd.rdmaRecv
  else if name = "RDMA Sent".data then nd.rdmaSent
  else 0

/-- Insert `x` after every already-placed element `y` with `le y x` — the
insertion step of a stable sort. -/
def insertLe {α : Type} (le : α → α → Bool) (x : α) : List α → List α
  | [] => [x]
  | y :: ys => if le y x then y :: insertLe le x ys else x :: y :: ys

/-- Stable sort in the sense of Python `list.sort`: equal keys keep their
original relative order; `reverse=True` is modelled by flipping the
comparator, exactly Python's reversed-comparison semantics. -/
def pyStableSort {α : Type} (le : α → α → Bool) (l : List α) : List α :=
  l.foldl (fun acc x => insertLe le x acc) []

/-- `host_list.sort(key=lambda x: x[1].get(metric_name, 0), reverse=rev)`. -/
def hostSortLe (metric : Str) (rev : Bool) (a b : Str × Metrics) : Bool :=
  if rev then decide (b.2.get metric ≤ a.2.get metric)
  else decide (a.2.get metric ≤ b.2.get metric)

def sortHostsList (metric : Str) (rev : Bool) (hosts : List (Str × Metrics)) :
    List (Str × Metrics) :=
  pyStableSort (hostSortLe metric rev) hosts

/-- `node_data_only.sort(key=lambda x: x.get(metric_name, 0), reverse=rev)`. -/
def nodeSortLe (metric : Str) (rev : Bool) (a b : NodeRow) : Bool :=
  if rev then decide (b.get metric ≤ a.get metric)
  else decide (a.get metric ≤ b.get metric)

def sortNodesList (metric : Str) (rev : Bool) (nodes : List NodeRow) :
    List NodeRow :=
  pyStableSort (nodeSortLe metric rev) nodes

/-- The `WekaMonitor` fields the core state machine reads and writes.
`selected_row` is an `Int`, as an unclamped Python int; the hosts dict is the
insertion-ordered association list; backend summaries are carried through
their metric part, the only part the state machine ever reads. -/
structure AppState where
  hosts : List (Str × Metrics)
  backend_hosts : List (Str × Metrics)
  node_details : List NodeRow
  selected_row : Int
  current_view : ViewMode
  current_mode : ClusterMode
  selected_host : Option Str
  metric_columns : List Str
  main_view_metric_columns : List Str
  sort_column : Option Str
  sort_reverse : Bool
  row_selection_mode : Bool
  row_selection_input : Str
deriving DecidableEq

/-- `sort_data(metric_name, ascending)`: record the sort state, then sort the
row set of the current view (the parsed drill-down rows all carry a node id,
so the totals partition the source re-prepends is empty) and reset the
selection; an empty row set is left untouched. -/
def sort_data (st : AppState) (metric_name : Str) (ascending : Bool) : AppState :=
  let st1 := { st with sort_column := some metric_name, sort_reverse := !ascending }
  match st1.current_view with
  | ViewMode.main =>
    if st1.hosts = [] then st1
    else { st1 with hosts := sortHostsList metric_name (!ascending) st1.hosts,
                    selected_row := 0 }
  | ViewMode.nodeDetails =>
    if st1.node_details = [] then st1
    else { st1 with
      node_details := sortNodesList metric_name (!ascending) st1.node_details,
      selected_row := 0 }

/-- `merge_data(status_data, stats_data)`: store the sort state, replace the
hosts map wholesale, reapply the remembered sort when its key is present, and
when drilled down refresh the node rows (the provider call's result is the
`fetched` parameter) and re-sort them with the remembered direction. -/
def merge_data (st : AppState) (stats : List (Str × Metrics))
    (fetched : List NodeRow) : AppState :=
  let cur_col := st.sort_column
  let cur_rev := st.sort_reverse
  let st1 :=
    match st.current_mode with
    | ClusterMode.backend => { st with backend_hosts := stats, hosts := stats }
    | ClusterMode.client => { st with hosts := stats }
  let st2 :=
    match cur_col with
    | none => st1
    | some c =>
      if st1.hosts ≠ [] ∧ c ∈ hostDictKeys then sort_data st1 c (!cur_rev)
      else st1
  match st2.current_view, st2.selected_host with
  | ViewMode.nodeDetails, some _ =>
    let st3 := { st2 with node_details := fetched }
    match cur_col with
    | none => st3
    | some c =>
      if st3.node_details ≠ [] ∧ c ∈ nodeDictKeys then
        { st3 with node_details := sortNodesList c cur_rev st3.node_details }
      else st3
  | _, _ => st2

/-- `up`-arrow navigation (`max(0, selected_row - 1)`), identical in both
views. -/
def navigate_up (st : AppState) : AppState :=
  { st with selected_row := max 0 (st.selected_row - 1) }

/-- `down`-arrow navigation: `min(rowCount - 1, selected_row + 1)` over the
current view's row set. -/
def navigate_down (st : AppState) : AppState :=
  match st.current_view with
  | ViewMode.main =>
    { st with selected_row := min ((st.hosts.length : Int) - 1) (st.selected_row + 1) }
  | ViewMode.nodeDetails =>
    { st with
      selected_row := min ((st.node_details.length : Int) - 1) (st.selected_row + 1) }

/-- Cancelling the row-selection input mode. -/
def cancelInput (st : AppState) : AppState :=
  { st with row_selection_mode := false, row_selection_input := [] }

/-- `process_sort_command`: grammar `s<+|-><columnNumberOrName>`; an explicit
direction character is mandatory, a bad index, name or format silently
cancels. -/
def process_sort_command (st : AppState) : AppState :=
  if st.row_selection_input.length < 2 then cancelInput st
  else
    let dir := st.row_selection_input.getD 1 ' '
    if dir = '+' ∨ dir = '-' then
      let column_input := st.row_selection_input.drop 2
      match pyInt column_input with
      | some n =>
        if 1 ≤ n ∧ n ≤ (st.metric_columns.length : Int) then
          cancelInput (sort_data st (st.metric_columns.getD (n - 1).toNat []) (dir = '+'))
        else cancelInput st
      | none =>
        if column_input ∈ st.metric_columns then
          cancelInput (sort_data st column_input (dir = '+'))
        else cancelInput st
    else cancelInput st

/-- `process_row_selection`: an `s`-prefixed buffer is a sort command, a
number is a 1-based row jump, anything else cancels. -/
def process_row_selection (st : AppState) : AppState :=
  if st.row_selection_input = [] then st
  else if st.row_selection_input.headD ' ' = 's' then process_sort_command st
  else
    match pyInt st.row_selection_input with
    | some n =>
      if 0 ≤ n - 1 ∧ n - 1 < (st.hosts.length : Int) then
        { st with selected_row := n - 1, row_selection_mode := false,
                  row_selection_input := [] }
      else cancelInput st
    | none => cancelInput st

/-- Typing `:`, a command, and Enter: buffer the command and process it. -/
def issueSortCommand (st : AppState) (cmd : Str) : AppState :=
  process_row_selection
    { st with row_selection_mode := true, row_selection_input := cmd }

def sPlus2 : Str := "s+2".data

/-- Candidate metrics of `add_column`: dict keys not already visible, the
`Hostname` column excluded. -/
def available_excluding (visible : List Str) : List Str :=
  availableMetricsKeys.filter (fun c => c ∉ visible ∧ c ≠ hostnameStr)

/-- `add_column`: append the first unused metric; both view branches append to
the working set, the main branch also syncs the saved main-view set. -/
def add_column (st : AppState) : AppState :=
  match available_excluding st.metric_columns with
  | [] => st
  | m :: _ =>
    let mc := st.metric_columns ++ [m]
    match st.current_view with
    | ViewMode.main => { st with metric_columns := mc, main_view_metric_columns := mc }
    | ViewMode.nodeDetails => { st with metric_columns := mc }

/-- `remove_column`: drop the last column when one exists; the main branch
also syncs the saved main-view set. -/
def remove_column (st : AppState) : AppState :=
  if 0 < st.metric_columns.length then
    let mc := st.metric_columns.dropLast
    match st.current_view with
    | ViewMode.main => { st with metric_columns := mc, main_view_metric_columns := mc }
    | ViewMode.nodeDetails => { st with metric_columns := mc }
  else st

/-- The cycling catalog: every dict key except `Hostname`. -/
def cyclable_metrics : List Str :=
  availableMetricsKeys.filter (fun c => c ≠ hostnameStr)

/-- `cycle_column(column_index)`: starting after the slot's current metric,
scan the catalog cyclically for the first metric not used in another slot
(or the current one itself); replace the slot, or do nothing when the scan
fails.  A missing current metric gives `current_index = -1` as in
`available_metrics.index`. -/
def cycle_column (st : AppState) (column_index : Nat) : AppState :=
  let metric_index := column_index - 1
  if st.metric_columns.length ≤ metric_index then st
  else
    let available := cyclable_metrics
    if available = [] then st
    else
      let current := st.metric_columns.getD metric_index []
      let used := st.metric_columns
      let current_index : Int :=
        if current ∈ available then (available.indexOf current : Int) else -1
      let len : Int := (available.length : Int)
      let candidates := (List.range available.length).map
        (fun i => available.getD ((current_index + (i : Int) + 1) % len).toNat [])
      match candidates.find? (fun cand => decide (cand ∉ used) || cand == current) with
      | none => st
      | some next =>
        { st with metric_columns := st.metric_columns.set metric_index next }

/-- The column-configuration invariant the operations maintain: no duplicate
metric and every entry drawn from the 12-metric cycling catalog. -/
def ColumnsInv (st : AppState) : Prop :=
  st.metric_columns.Nodup ∧ ∀ x ∈ st.metric_columns, x ∈ cyclable_metrics

/-- A column-configuration command: key `1`-`9`, `a`, or `r`. -/
inductive ColumnOp
  | cycle (i : Nat)
  | add
  | remove
deriving DecidableEq

def applyColumnOp (st : AppState) (op : ColumnOp) : AppState :=
  match op with
  | ColumnOp.cycle i => cycle_column st i
  | ColumnOp.add => add_column st
  | ColumnOp.remove => remove_column st

def applyColumnOps (st : AppState) (ops : List ColumnOp) : AppState :=
  ops.foldl applyColumnOp st

/-- Python list indexing with wrap-around for negative indices; `none` models
the `IndexError` (which `drill_down_to_host` never handles — outside the
claims, the guard keeps the index below the length only). -/
def pyIndex {α : Type} (l : List α) (i : Int) : Option α :=
  if 0 ≤ i then l.get? i.toNat
  else if 0 ≤ i + (l.length : Int) then l.get? (i + (l.length : Int)).toNat
  else none

/-- `drill_down_to_host`: guard the selection against the row count, resolve
the selected group key, snapshot the main-view columns, install the fetched
node rows (the focused provider query is the external `fetched` input) and
switch to the drill-down view. -/
def drill_down_to_host (st : AppState) (fetched : List NodeRow) : AppState :=
  if (st.hosts.length : Int) ≤ st.selected_row then st
  else
    match pyIndex st.hosts st.selected_row with
    | none => st
    | some e =>
      { st with selected_host := some e.1,
                main_view_metric_columns := st.metric_columns,
                node_details := fetched,
                current_view := ViewMode.nodeDetails }

/-- `return_to_main_view`: drop the drill-down data, reset the selection and
restore the saved main-view column configuration verbatim. -/
def return_to_main_view (st : AppState) : AppState :=
  { st with current_view := ViewMode.main,
            selected_host := none,
            node_details := [],
            selected_row := 0,
            metric_columns := st.main_view_metric_columns }

/-- `get_unique_initial_metrics`: the six default metrics, deduplicated
against the catalog, padded from the catalog, truncated to six. -/
def get_unique_initial_metrics : List Str :=
  let available := cyclable_metrics
  let defaults := ["CPU%".data, opsStr, "Reads/s".data, "Writes/s".data,
    "Read Latency(µs)".data, "Write Latency(µs)".data]
  let first := defaults.foldl
    (fun acc m => if m ∈ available ∧ m ∉ acc then acc ++ [m] else acc) []
  let both := available.foldl
    (fun acc m => if m ∉ acc then acc ++ [m] else acc) first
  both.take 6

/-- The `__init__` state of the monitor. -/
def initialState : AppState :=
  { hosts := [], backend_hosts := [], node_details := [], selected_row := 0,
    current_view := ViewMode.main, current_mode := ClusterMode.client,
    selected_host := none,
    metric_columns := get_unique_initial_metrics,
    main_view_metric_columns := get_unique_initial_metrics,
    sort_column := none, sort_reverse := false,
    row_selection_mode := false, row_selection_input := [] }

def bHost : Str := "B".data

def cHost : Str := "C".data

/-- A metrics record whose only nonzero field is Ops/s. -/
def opsOnly (q : ℚ) : Metrics := ⟨0, q, 0, 0, 0, 0, 0, 0, 0, 0, 0, 0⟩

/-- Main view with two hosts whose Ops/s are 5 and 3, default columns
(slot 2 is Ops/s). -/
def c5State : AppState :=
  { initialState with hosts := [(aHost, opsOnly 5), (bHost, opsOnly 3)] }

/-- Main view with three hosts and the bottom row selected, no active sort. -/
def c7State : AppState :=
  { initialState with
    hosts := [(aHost, zeroMetrics), (bHost, zeroMetrics), (cHost, zeroMetrics)],
    selected_row := 2 }

/-- Main view with an active Ops/s sort. -/
def c7SortState : AppState := { initialState with sort_column := some opsStr }

/-- Main view with an active descending Ops/s sort. -/
def c4State : AppState :=
  { initialState with sort_column := some opsStr, sort_reverse := true }

/-- Main view with one host and the top row selected. -/
def c9State : AppState := { initialState with hosts := [(aHost, zeroMetrics)] }

/-! ### Characterisation of the grouping loop -/

theorem lookupKey_nil {β : Type} (k : Str) : lookupKey ([] : List (Str × β)) k = none := by
  simp [lookupKey]

theorem lookupKey_cons {β : Type} (a : Str) (vs : β) (rest : List (Str × β))
    (k : Str) :
    lookupKey ((a, vs) :: rest) k = if a = k then some vs else lookupKey rest k := by
  by_cases h : a = k
  · rw [lookupKey, List.find?_cons_of_pos _ (by simpa using h), if_pos h]
    rfl
  · rw [lookupKey, List.find?_cons_of_neg _ (by simpa using h), if_neg h]
    rfl

theorem lookupKey_addToGroup {β : Type} (gs : List (Str × List β)) (k' k : Str)
    (v : β) :
    lookupKey (addToGroup gs k' v) k =
      if k' = k then some (((lookupKey gs k).getD []) ++ [v]) else lookupKey gs k := by
  induction gs with
  | nil =>
    by_cases h : k' = k <;> simp [addToGroup, lookupKey_cons, lookupKey_nil, h]
  | cons e rest ih =>
    obtain ⟨a, vs⟩ := e
    simp only [addToGroup]
    by_cases hak : a = k'
    · rw [if_pos hak]
      by_cases hk : k' = k
      · subst hk
        subst hak
        simp [lookupKey_cons]
      · have hk2 : a ≠ k := by rw [hak]; exact hk
        simp [lookupKey_cons, hk2, hk]
    · rw [if_neg hak]
      by_cases hk : a = k
      · have hk'k : k' ≠ k := fun h => hak (by rw [hk, h])
        simp [lookupKey_cons, hk, hk'k]
      · simp [lookupKey_cons, hk, ih]

theorem lookupKey_foldl_addToGroup {β : Type} (key : RawRow → Str)
    (val : RawRow → β) (rows : List RawRow) :
    ∀ (gs : List (Str × List β)) (k : Str),
      lookupKey (rows.foldl (fun a r => addToGroup a (key r) (val r)) gs) k =
        mergeOpt (lookupKey gs k) ((rows.filter (fun r => key r == k)).map val) := by
  induction rows with
  | nil =>
    intro gs k
    cases h : lookupKey gs k <;> simp [mergeOpt, h]
  | cons r rows ih =>
    intro gs k
    by_cases hk : key r = k
    · simp only [List.foldl_cons, ih, lookupKey_addToGroup, if_pos hk,
        List.filter_cons, hk]
      cases h : lookupKey gs k <;>
        simp [mergeOpt, h, List.map_cons]
    · simp only [List.foldl_cons, ih, lookupKey_addToGroup, if_neg hk,
        List.filter_cons]
      have : (key r == k) = false := by simpa using hk
      simp [this]

/-- Keys of the grouping map resolve to the filtered, value-mapped rows. -/
theorem lookupKey_groupRowsBy {β : Type} (key : RawRow → Str) (val : RawRow → β)
    (rows : List RawRow) (k : Str) :
    lookupKey (groupRowsBy key val rows) k =
      mergeOpt none ((rows.filter (fun r => key r == k)).map val) := by
  have h := lookupKey_foldl_addToGroup key val rows [] k
  simpa [groupRowsBy, lookupKey] using h

theorem addToGroup_ne_nil {β : Type} (gs : List (Str × List β)) (k : Str) (v : β)
    (h : ∀ e ∈ gs, e.2 ≠ []) : ∀ e ∈ addToGroup gs k v, e.2 ≠ [] := by
  induction gs with
  | nil => simp [addToGroup]
  | cons e0 rest ih =>
    obtain ⟨a, vs⟩ := e0
    by_cases hak : a = k
    · intro e he
      simp only [addToGroup, if_pos hak] at he
      rcases List.mem_cons.mp he with h1 | h1
      · subst h1; simp
      · exact h e (List.mem_cons_of_mem _ h1)
    · intro e he
      simp only [addToGroup, if_neg hak] at he
      rcases List.mem_cons.mp he with h1 | h1
      · subst h1
        exact h (a, vs) (List.mem_cons_self _ _)
      · exact ih (fun e' he' => h e' (List.mem_cons_of_mem _ he')) e h1

theorem groupRowsBy_ne_nil {β : Type} (key : RawRow → Str) (val : RawRow → β)
    (rows : List RawRow) : ∀ e ∈ groupRowsBy key val rows, e.2 ≠ [] := by
  suffices h : ∀ (gs : List (Str × List β)), (∀ e ∈ gs, e.2 ≠ []) →
      ∀ e ∈ rows.foldl (fun a r => addToGroup a (key r) (val r)) gs, e.2 ≠ [] by
    exact h [] (by simp)
  induction rows with
  | nil => intro gs hgs; simpa using hgs
  | cons r rows ih =>
    intro gs hgs
    exact ih _ (addToGroup_ne_nil _ _ _ hgs)

theorem mergeOpt_none {β : Type} [DecidableEq β] (l : List β) :
    mergeOpt none l = if l = [] then none else some l := by
  cases l <;> simp [mergeOpt]

theorem lookupKey_filterMap_client (gs : List (Str × List Metrics)) (k : Str)
    (h : ∀ e ∈ gs, e.2 ≠ []) :
    lookupKey (gs.filterMap
        (fun g => if g.2.isEmpty then none else some (g.1, aggregateGroup g.2))) k =
      (lookupKey gs k).map aggregateGroup := by
  induction gs with
  | nil => simp [lookupKey_nil]
  | cons e rest ih =>
    obtain ⟨a, vs⟩ := e
    have hvs : vs.isEmpty = false := by
      simpa [List.isEmpty_iff] using h (a, vs) (List.mem_cons_self _ _)
    have htail : ∀ e ∈ rest, e.2 ≠ [] := fun e he => h e (List.mem_cons_of_mem _ he)
    have hstep : List.filterMap
        (fun (g : Str × List Metrics) =>
          if g.2.isEmpty then none else some (g.1, aggregateGroup g.2))
        ((a, vs) :: rest) =
        (a, aggregateGroup vs) :: List.filterMap
          (fun (g : Str × List Metrics) =>
            if g.2.isEmpty then none else some (g.1, aggregateGroup g.2)) rest := by
      rw [List.filterMap_cons]
      simp [hvs]
    rw [hstep]
    by_cases hk : a = k
    · rw [lookupKey_cons, if_pos hk, lookupKey_cons, if_pos hk]
      rfl
    · rw [lookupKey_cons, if_neg hk, lookupKey_cons, if_neg hk]
      exact ih htail

/-- `lookupKey` view of `parse_csv_stats_aggregated`: the entry of key `k` is
the reduction of exactly the input rows whose hostname is `k`. -/
theorem lookup_parse_csv_stats_aggregated (rows : List RawRow) (k : Str) :
    lookupKey (parse_csv_stats_aggregated rows) k =
      if rows.filter (fun r => rowHost r == k) = [] then none
      else some (aggregateGroup ((rows.filter (fun r => rowHost r == k)).map coerceRow)) := by
  rw [parse_csv_stats_aggregated,
    lookupKey_filterMap_client _ _ (groupRowsBy_ne_nil _ _ rows),
    lookupKey_groupRowsBy, mergeOpt_none]
  by_cases h : rows.filter (fun r => rowHost r == k) = []
  · simp [h]
  · have h2 : (rows.filter (fun r => rowHost r == k)).map coerceRow ≠ [] := by
      simpa using h
    simp [h, h2]

theorem parse_backend_eq_reduce (rows : List RawRow) :
    parse_csv_stats_backend_aggregated rows =
      (groupRowsBy backendKey (fun r => (rowHost r, rowRole r, coerceRow r)) rows).filterMap
        (fun g => (backendReduce g.2).map (fun s => (g.1, s))) := by
  rw [parse_csv_stats_backend_aggregated]
  congr 1
  funext g
  cases hg : g.2 <;> simp [backendReduce, hg]

theorem lookupKey_filterMap_backend (gs : List (Str × List (Str × Str × Metrics)))
    (k : Str) (h : ∀ e ∈ gs, e.2 ≠ []) :
    lookupKey (gs.filterMap (fun g => (backendReduce g.2).map (fun s => (g.1, s)))) k =
      (lookupKey gs k).bind backendReduce := by
  induction gs with
  | nil => simp [lookupKey_nil]
  | cons e rest ih =>
    obtain ⟨a, vs⟩ := e
    have htail : ∀ e ∈ rest, e.2 ≠ [] := fun e he => h e (List.mem_cons_of_mem _ he)
    rcases vs with _ | ⟨v0, vs'⟩
    · exact absurd rfl (h (a, []) (List.mem_cons_self _ _))
    · have hred : backendReduce (v0 :: vs') =
          some ⟨v0.1, v0.2.1, aggregateGroup ((v0 :: vs').map (fun v => v.2.2))⟩ := rfl
      have hstep : List.filterMap
          (fun (g : Str × List (Str × Str × Metrics)) =>
            (backendReduce g.2).map (fun s => (g.1, s)))
          ((a, v0 :: vs') :: rest) =
          (a, ⟨v0.1, v0.2.1, aggregateGroup ((v0 :: vs').map (fun v => v.2.2))⟩) ::
            List.filterMap
              (fun (g : Str × List (Str × Str × Metrics)) =>
                (backendReduce g.2).map (fun s => (g.1, s))) rest := by
        rw [List.filterMap_cons]
        simp [hred]
      rw [hstep]
      by_cases hk : a = k
      · rw [lookupKey_cons, if_pos hk, lookupKey_cons, if_pos hk]
        simp [hred]
      · rw [lookupKey_cons, if_neg hk, lookupKey_cons, if_neg hk]
        exact ih htail

/-- `lookupKey` view of `parse_csv_stats_backend_aggregated`: the entry of
group key `k` carries the base hostname and role of the group's first row and
the reduction of exactly the rows whose backend key is `k`. -/
theorem lookup_parse_csv_stats_backend_aggregated (rows : List RawRow) (k : Str) :
    lookupKey (parse_csv_stats_backend_aggregated rows) k =
      ((rows.filter (fun r => backendKey r == k)).head?).map
        (fun r0 => ⟨rowHost r0, rowRole r0,
          aggregateGroup ((rows.filter (fun r => backendKey r == k)).map coerceRow)⟩) := by
  rw [parse_backend_eq_reduce,
    lookupKey_filterMap_backend _ _ (groupRowsBy_ne_nil _ _ rows),
    lookupKey_groupRowsBy, mergeOpt_none]
  cases hf : rows.filter (fun r => backendKey r == k) with
  | nil => simp [hf]
  | cons r0 rest =>
    simp [hf, backendReduce, List.map_map]
    rfl

/-! ### Field-projection view of the aggregation loop -/

theorem foldl_addMetrics_proj (f : Metrics → ℚ)
    (hf : ∀ a b, f (addMetrics a b) = f a + f b) :
    ∀ (g : List Metrics) (a : Metrics),
      f (g.foldl addMetrics a) = f a + (g.map f).sum := by
  intro g
  induction g with
  | nil => intro a; simp
  | cons x xs ih =>
    intro a
    simp only [List.foldl_cons, ih, hf, List.map_cons, List.sum_cons]
    ring

theorem aggregateGroup_summed_proj (f : Metrics → ℚ)
    (hf : ∀ a b, f (addMetrics a b) = f a + f b) (hz : f zeroMetrics = 0)
    (havg : ∀ agg n, f (averageStep agg n) = f agg) (g : List Metrics) :
    f (aggregateGroup g) = (g.map f).sum := by
  rw [aggregateGroup]
  by_cases hg : g.length > 0
  · simp [hg, havg, foldl_addMetrics_proj f hf, hz]
  · simp [hg, foldl_addMetrics_proj f hf, hz]

theorem aggregateGroup_avg_proj (f : Metrics → ℚ)
    (hf : ∀ a b, f (addMetrics a b) = f a + f b) (hz : f zeroMetrics = 0)
    (havg : ∀ agg n, f (averageStep agg n) =
      if 0 < f agg then f agg / (n : ℚ) else f agg)
    (g : List Metrics) (hg : g ≠ []) :
    f (aggregateGroup g) =
      if 0 < (g.map f).sum then (g.map f).sum / (g.length : ℚ) else (g.map f).sum := by
  rw [aggregateGroup]
  have hlen : g.length > 0 := List.length_pos.mpr hg
  simp [hlen, havg, foldl_addMetrics_proj f hf, hz]

theorem summedOk (f : Metrics → ℚ)
    (hf : ∀ a b, f (addMetrics a b) = f a + f b) (hz : f zeroMetrics = 0)
    (havg : ∀ agg n, f (averageStep agg n) = f agg) :
    SummedClientOk f ∧ SummedBackendOk f := by
  constructor
  · intro rows k
    rw [lookup_parse_csv_stats_aggregated]
    by_cases hg : rows.filter (fun r => rowHost r == k) = []
    · simp [clientGroup, hg]
    · simp [clientGroup, hg, aggregateGroup_summed_proj f hf hz havg, List.map_map,
        Function.comp_def]
  · intro rows k
    rw [lookup_parse_csv_stats_backend_aggregated]
    cases hflt : rows.filter (fun r => backendKey r == k) with
    | nil => simp [backendGroup, hflt]
    | cons r0 rest =>
      simp [backendGroup, hflt, aggregateGroup_summed_proj f hf hz havg, List.map_map,
        Function.comp_def]

theorem averagedOk (f : Metrics → ℚ)
    (hf : ∀ a b, f (addMetrics a b) = f a + f b) (hz : f zeroMetrics = 0)
    (havg : ∀ agg n, f (averageStep agg n) =
      if 0 < f agg then f agg / (n : ℚ) else f agg) :
    AveragedClientOk f ∧ AveragedBackendOk f := by
  constructor
  · intro rows k m hm hsum
    rw [lookup_parse_csv_stats_aggregated] at hm
    by_cases hg : rows.filter (fun r => rowHost r == k) = []
    · rw [if_pos hg] at hm
      exact absurd hm (by simp)
    · rw [if_neg hg] at hm
      have hmap_ne : (rows.filter (fun r => rowHost r == k)).map coerceRow ≠ [] := by
        simpa using hg
      have hm2 : m = aggregateGroup ((rows.filter (fun r => rowHost r == k)).map coerceRow) :=
        (Option.some.injEq _ _).mp hm |>.symm
      subst hm2
      rw [aggregateGroup_avg_proj f hf hz havg _ hmap_ne]
      have hsum_eq :
          ((((rows.filter (fun r => rowHost r == k)).map coerceRow)).map f).sum =
            ((clientGroup rows k).map (fun r => f (coerceRow r))).sum := by
        simp [clientGroup, List.map_map, Function.comp_def]
      have hlen_eq :
          ((((rows.filter (fun r => rowHost r == k)).map coerceRow)).length : ℚ) =
            ((clientGroup rows k).length : ℚ) := by
        simp [clientGroup]
      rw [hsum_eq, hlen_eq]
      rcases lt_or_eq_of_le hsum with hlt | heq
      · rw [if_pos hlt]
      · rw [if_neg (by rw [← heq]; exact lt_irrefl 0), ← heq]
        simp
  · intro rows k s hs hsum
    rw [lookup_parse_csv_stats_backend_aggregated] at hs
    cases hflt : rows.filter (fun r => backendKey r == k) with
    | nil => rw [hflt] at hs; exact absurd hs (by simp)
    | cons r0 rest =>
      rw [hflt] at hs
      have hs2 : s = ⟨rowHost r0, rowRole r0, aggregateGroup ((r0 :: rest).map coerceRow)⟩ := by
        simpa using hs.symm
      subst hs2
      have hmap_ne : (r0 :: rest).map coerceRow ≠ [] := by simp
      show f (aggregateGroup ((r0 :: rest).map coerceRow)) = _
      rw [aggregateGroup_avg_proj f hf hz havg _ hmap_ne]
      have hsum_eq : (((r0 :: rest).map coerceRow).map f).sum =
          ((backendGroup rows k).map (fun r => f (coerceRow r))).sum := by
        simp [backendGroup, hflt, List.map_map, Function.comp_def]
      have hlen_eq : ((((r0 :: rest)).map coerceRow).length : ℚ) =
          ((backendGroup rows k).length : ℚ) := by
        simp [backendGroup, hflt]
      rw [hsum_eq, hlen_eq]
      rcases lt_or_eq_of_le hsum with hlt | heq
      · rw [if_pos hlt]
      · rw [if_neg (by rw [← heq]; exact lt_irrefl 0), ← heq]
        simp

/-- C1: on both aggregation paths (client grouping by host, backend grouping by
host-role key), every summed metric — Ops/s, Reads/s, Writes/s, L6 Recv,
L6 Sent, OBS Upload, OBS Download, RDMA Recv, RDMA Sent — of an aggregated
HostSummary equals the arithmetic sum of that metric's coerced values over all
rows of the group. -/
theorem c1_summed_metrics_equal_sum :
    SummedClientOk Metrics.ops ∧ SummedBackendOk Metrics.ops ∧
    SummedClientOk Metrics.readsPs ∧ SummedBackendOk Metrics.readsPs ∧
    SummedClientOk Metrics.writesPs ∧ SummedBackendOk Metrics.writesPs ∧
    SummedClientOk Metrics.l6recv ∧ SummedBackendOk Metrics.l6recv ∧
    SummedClientOk Metrics.l6sent ∧ SummedBackendOk Metrics.l6sent ∧
    SummedClientOk Metrics.obsUpload ∧ SummedBackendOk Metrics.obsUpload ∧
    SummedClientOk Metrics.obsDownload ∧ SummedBackendOk Metrics.obsDownload ∧
    SummedClientOk Metrics.rdmaRecv ∧ SummedBackendOk Metrics.rdmaRecv ∧
    SummedClientOk Metrics.rdmaSent ∧ SummedBackendOk Metrics.rdmaSent :=
  have hOps := summedOk Metrics.ops (fun _ _ => rfl) rfl (fun _ _ => rfl)
  have hReads := summedOk Metrics.readsPs (fun _ _ => rfl) rfl (fun _ _ => rfl)
  have hWrites := summedOk Metrics.writesPs (fun _ _ => rfl) rfl (fun _ _ => rfl)
  have hL6r := summedOk Metrics.l6recv (fun _ _ => rfl) rfl (fun _ _ => rfl)
  have hL6s := summedOk Metrics.l6sent (fun _ _ => rfl) rfl (fun _ _ => rfl)
  have hObsU := summedOk Metrics.obsUpload (fun _ _ => rfl) rfl (fun _ _ => rfl)
  have hObsD := summedOk Metrics.obsDownload (fun _ _ => rfl) rfl (fun _ _ => rfl)
  have hRdR := summedOk Metrics.rdmaRecv (fun _ _ => rfl) rfl (fun _ _ => rfl)
  have hRdS := summedOk Metrics.rdmaSent (fun _ _ => rfl) rfl (fun _ _ => rfl)
  ⟨hOps.1, hOps.2, hReads.1, hReads.2, hWrites.1, hWrites.2, hL6r.1, hL6r.2,
   hL6s.1, hL6s.2, hObsU.1, hObsU.2, hObsD.1, hObsD.2, hRdR.1, hRdR.2,
   hRdS.1, hRdS.2⟩

/-- C1 witness: two rows for host `A` with Ops/s 100 and 300 satisfy the
summed-metric property, and the aggregate is 400. -/
theorem c1_summed_metrics_equal_sum_witness :
    ((lookupKey (parse_csv_stats_aggregated scnRows) aHost).map Metrics.ops =
      if clientGroup scnRows aHost = [] then none
      else some (((clientGroup scnRows aHost).map (fun r => Metrics.ops (coerceRow r))).sum)) ∧
    (lookupKey (parse_csv_stats_aggregated scnRows) aHost).map Metrics.ops = some 400 := by
  constructor
  · exact c1_summed_metrics_equal_sum.1 scnRows aHost
  · rw [c1_summed_metrics_equal_sum.1 scnRows aHost]
    rw [if_neg (by decide)]
    have hgrp : clientGroup scnRows aHost = scnRows := by decide
    rw [hgrp]
    have h100 : Metrics.ops (coerceRow scnRow1) = 100 := by decide
    have h300 : Metrics.ops (coerceRow scnRow2) = 300 := by decide
    simp [scnRows, h100, h300]
    norm_num

/-- C2 as stated is false: the source divides an averaged metric by the group
size only when the running sum is strictly positive, so a group of two rows
with CPU% `-5` each aggregates to `-10`, not to the mean `-5`. -/
theorem c2_counterexample :
    (lookupKey (parse_csv_stats_aggregated negCpuRows) aHost).map Metrics.cpu =
      some (-10) ∧
    ((clientGroup negCpuRows aHost).map (fun r => Metrics.cpu (coerceRow r))).sum /
        ((clientGroup negCpuRows aHost).length : ℚ) = -5 ∧
    ((-10 : ℚ)) ≠ -5 := by
  refine ⟨?_, ?_, by norm_num⟩
  · rw [lookup_parse_csv_stats_aggregated, if_neg (by decide)]
    have hflt : negCpuRows.filter (fun r => rowHost r == aHost) = negCpuRows := by decide
    rw [hflt]
    have hco : coerceRow negCpuRow = ⟨-5, 0, 0, 0, 0, 0, 0, 0, 0, 0, 0, 0⟩ := by decide
    simp only [negCpuRows, List.map_cons, List.map_nil, hco]
    simp [aggregateGroup, addMetrics, zeroMetrics, averageStep]
    norm_num
  · have hgrp : clientGroup negCpuRows aHost = negCpuRows := by decide
    rw [hgrp]
    have hco : Metrics.cpu (coerceRow negCpuRow) = -5 := by decide
    simp [negCpuRows, hco]

/-- C2 amended: on both aggregation paths, whenever the running sum of an
averaged metric (CPU%, Read Latency(µs), Write Latency(µs)) over the group is
nonnegative, the aggregated value is `sum / len(rows)` — in particular a zero
sum makes the skipped division a no-op.  (When the sum is negative the source
skips the division and stores the raw sum, which is what the counterexample
exhibits.) -/
theorem c2_averaged_metrics_are_means :
    AveragedClientOk Metrics.cpu ∧ AveragedBackendOk Metrics.cpu ∧
    AveragedClientOk Metrics.rlat ∧ AveragedBackendOk Metrics.rlat ∧
    AveragedClientOk Metrics.wlat ∧ AveragedBackendOk Metrics.wlat :=
  have hCpu := averagedOk Metrics.cpu (fun _ _ => rfl) rfl (fun _ _ => rfl)
  have hRlat := averagedOk Metrics.rlat (fun _ _ => rfl) rfl (fun _ _ => rfl)
  have hWlat := averagedOk Metrics.wlat (fun _ _ => rfl) rfl (fun _ _ => rfl)
  ⟨hCpu.1, hCpu.2, hRlat.1, hRlat.2, hWlat.1, hWlat.2⟩

/-- C2 amended witness: host `A` with CPU% 20 and 40 has nonnegative running
sum and averages to `(20+40)/2`. -/
theorem c2_averaged_metrics_are_means_witness :
    Metrics.cpu (aggregateGroup
        ((scnRows.filter (fun r => rowHost r == aHost)).map coerceRow)) =
      ((clientGroup scnRows aHost).map (fun r => Metrics.cpu (coerceRow r))).sum /
        ((clientGroup scnRows aHost).length : ℚ) := by
  apply c2_averaged_metrics_are_means.1 scnRows aHost
  · rw [lookup_parse_csv_stats_aggregated, if_neg (by decide)]
  · have hgrp : clientGroup scnRows aHost = scnRows := by decide
    rw [hgrp]
    have h20 : Metrics.cpu (coerceRow scnRow1) = 20 := by decide
    have h40 : Metrics.cpu (coerceRow scnRow2) = 40 := by decide
    simp [scnRows, h20, h40]
    norm_num

/-! ### The drill-down totals row -/

theorem foldl_addNodeRow_proj (f : NodeTotals → ℚ) (g : NodeRow → ℚ)
    (hfg : ∀ t nd, f (addNodeRow t nd) = f t + g nd) :
    ∀ (l : List NodeRow) (t : NodeTotals),
      f (l.foldl addNodeRow t) = f t + (l.map g).sum := by
  intro l
  induction l with
  | nil => intro t; simp
  | cons x xs ih =>
    intro t
    simp only [List.foldl_cons, ih, hfg, List.map_cons, List.sum_cons]
    ring

/-- C3: for every non-empty drill-down node list, the synthetic totals row has
CPU% equal to the maximum CPU% over the rows, the two latencies equal to the
arithmetic mean over the rows, and every other numeric metric equal to the sum
over the rows. -/
theorem c3_totals_row_max_mean_sum (x : NodeRow) (xs : List NodeRow) :
    (calculate_node_totals (x :: xs)).map (fun t => t.cpu) =
      some ((xs.map (fun nd => nd.cpu)).foldl max x.cpu) ∧
    (calculate_node_totals (x :: xs)).map (fun t => t.rlat) =
      some ((((x :: xs).map (fun nd => nd.rlat)).sum) / (((x :: xs).length : ℚ))) ∧
    (calculate_node_totals (x :: xs)).map (fun t => t.wlat) =
      some ((((x :: xs).map (fun nd => nd.wlat)).sum) / (((x :: xs).length : ℚ))) ∧
    (calculate_node_totals (x :: xs)).map (fun t => t.writesPs) =
      some (((x :: xs).map (fun nd => nd.writesPs)).sum) ∧
    (calculate_node_totals (x :: xs)).map (fun t => t.write) =
      some (((x :: xs).map (fun nd => nd.write)).sum) ∧
    (calculate_node_totals (x :: xs)).map (fun t => t.readsPs) =
      some (((x :: xs).map (fun nd => nd.readsPs)).sum) ∧
    (calculate_node_totals (x :: xs)).map (fun t => t.read) =
      some (((x :: xs).map (fun nd => nd.read)).sum) ∧
    (calculate_node_totals (x :: xs)).map (fun t => t.ops) =
      some (((x :: xs).map (fun nd => nd.ops)).sum) ∧
    (calculate_node_totals (x :: xs)).map (fun t => t.l6recv) =
      some (((x :: xs).map (fun nd => nd.l6recv)).sum) ∧
    (calculate_node_totals (x :: xs)).map (fun t => t.l6sent) =
      some (((x :: xs).map (fun nd => nd.l6sent)).sum) ∧
    (calculate_node_totals (x :: xs)).map (fun t => t.obsUpload) =
      some (((x :: xs).map (fun nd => nd.obsUpload)).sum) ∧
    (calculate_node_totals (x :: xs)).map (fun t => t.obsDownload) =
      some (((x :: xs).map (fun nd => nd.obsDownload)).sum) ∧
    (calculate_node_totals (x :: xs)).map (fun t => t.rdmaRecv) =
      some (((x :: xs).map (fun nd => nd.rdmaRecv)).sum) ∧
    (calculate_node_totals (x :: xs)).map (fun t => t.rdmaSent) =
      some (((x :: xs).map (fun nd => nd.rdmaSent)).sum) := by
  have hsum : ∀ (f : NodeTotals → ℚ) (g : NodeRow → ℚ),
      (∀ t nd, f (addNodeRow t nd) = f t + g nd) → f zeroNodeTotals = 0 →
      f ((x :: xs).foldl addNodeRow zeroNodeTotals) = ((x :: xs).map g).sum := by
    intro f g hfg hz
    rw [foldl_addNodeRow_proj f g hfg, hz, zero_add]
  refine ⟨?_, ?_, ?_, ?_, ?_, ?_, ?_, ?_, ?_, ?_, ?_, ?_, ?_, ?_⟩ <;>
      simp only [calculate_node_totals, Option.map_some']
  · exact congrArg (fun q => some (q / (((x :: xs).length : ℚ))))
      (hsum (fun t => t.rlat) (fun nd => nd.rlat) (fun _ _ => rfl) rfl)
  · exact congrArg (fun q => some (q / (((x :: xs).length : ℚ))))
      (hsum (fun t => t.wlat) (fun nd => nd.wlat) (fun _ _ => rfl) rfl)
  · exact congrArg some
      (hsum (fun t => t.writesPs) (fun nd => nd.writesPs) (fun _ _ => rfl) rfl)
  · exact congrArg some
      (hsum (fun t => t.write) (fun nd => nd.write) (fun _ _ => rfl) rfl)
  · exact congrArg some
      (hsum (fun t => t.readsPs) (fun nd => nd.readsPs) (fun _ _ => rfl) rfl)
  · exact congrArg some
      (hsum (fun t => t.read) (fun nd => nd.read) (fun _ _ => rfl) rfl)
  · exact congrArg some
      (hsum (fun t => t.ops) (fun nd => nd.ops) (fun _ _ => rfl) rfl)
  · exact congrArg some
      (hsum (fun t => t.l6recv) (fun nd => nd.l6recv) (fun _ _ => rfl) rfl)
  · exact congrArg some
      (hsum (fun t => t.l6sent) (fun nd => nd.l6sent) (fun _ _ => rfl) rfl)
  · exact congrArg some
      (hsum (fun t => t.obsUpload) (fun nd => nd.obsUpload) (fun _ _ => rfl) rfl)
  · exact congrArg some
      (hsum (fun t => t.obsDownload) (fun nd => nd.obsDownload) (fun _ _ => rfl) rfl)
  · exact congrArg some
      (hsum (fun t => t.rdmaRecv) (fun nd => nd.rdmaRecv) (fun _ _ => rfl) rfl)
  · exact congrArg some
      (hsum (fun t => t.rdmaSent) (fun nd => nd.rdmaSent) (fun _ _ => rfl) rfl)

/-! ### Backend group-key round trip -/

theorem modifyHead_append_left {α : Type} (f : α → α) (l l' : List α)
    (h : l ≠ []) : (l ++ l').modifyHead f = l.modifyHead f ++ l' := by
  cases l with
  | nil => exact absurd rfl h
  | cons a as => simp

theorem splitOnP_append_sep (p : Char → Bool) (x : Char) (hx : p x = true)
    (r : Str) (hr : ∀ y ∈ r, p y = false) :
    ∀ h : Str, (h ++ x :: r).splitOnP p = h.splitOnP p ++ [r] := by
  intro h
  induction h with
  | nil =>
    rw [List.nil_append, List.splitOnP_cons, if_pos hx,
      List.splitOnP_eq_single _ _ (fun y hy => by simp [hr y hy])]
    rfl
  | cons a h ih =>
    rw [List.cons_append, List.splitOnP_cons, List.splitOnP_cons]
    by_cases hpa : p a
    · rw [if_pos hpa, if_pos hpa, ih]
      rfl
    · rw [if_neg hpa, if_neg hpa, ih,
        modifyHead_append_left _ _ _ (List.splitOnP_ne_nil p h)]

theorem splitOn_append_sep (x : Char) (h r : Str) (hx : x ∉ r) :
    (h ++ x :: r).splitOn x = h.splitOn x ++ [r] := by
  have hr : ∀ y ∈ r, (y == x) = false := by
    intro y hy
    have hne : y ≠ x := fun e => hx (e ▸ hy)
    simp [hne]
  simpa [List.splitOn] using splitOnP_append_sep (fun c => c == x) x (by simp) r hr h

/-- C10: resolving the backend group key `base + "-" + role` by splitting at
the last `'-'` recovers exactly the base hostname (which may itself contain
`'-'`) and the role, whenever the role contains no `'-'`. -/
theorem c10_backend_key_round_trip (row : RawRow)
    (hr : ('-' : Char) ∉ rowRole row) :
    resolve_backend_group_key (backendKey row) =
      (rowHost row, some (rowRole row)) := by
  have hmem : ('-' : Char) ∈ backendKey row :=
    List.mem_append_right _ (List.mem_cons_self _ _)
  have hsplit : (backendKey row).splitOn '-' =
      (rowHost row).splitOn '-' ++ [rowRole row] :=
    splitOn_append_sep '-' (rowHost row) (rowRole row) hr
  have hne : (rowHost row).splitOn '-' ≠ [] := List.splitOnP_ne_nil _ _
  have hlen : 2 ≤ (((rowHost row).splitOn '-') ++ [rowRole row]).length := by
    have hpos : 0 < ((rowHost row).splitOn '-').length := List.length_pos.mpr hne
    rw [List.length_append]
    simp only [List.length_cons, List.length_nil]
    omega
  rw [resolve_backend_group_key, if_pos hmem]
  simp only [hsplit, if_pos hlen, List.dropLast_concat, List.getLastD_concat,
    List.intercalate_splitOn]

/-- C10 witness: the key built from base host `host-X` (itself containing a
hyphen) and role `DRIVES` resolves back to exactly that pair. -/
theorem c10_backend_key_round_trip_witness :
    (('-' : Char) ∉ rowRole backendScnRow) ∧
    resolve_backend_group_key (backendKey backendScnRow) =
      (rowHost backendScnRow, some (rowRole backendScnRow)) :=
  ⟨by decide, c10_backend_key_round_trip backendScnRow (by decide)⟩

/-! ### Sort persistence across refresh (`merge_data`) -/

theorem merge_data_active_sort (st : AppState) (stats : List (Str × Metrics))
    (fetched : List NodeRow) (c : Str)
    (hview : st.current_view = ViewMode.main)
    (hcol : st.sort_column = some c)
    (hkey : c ∈ hostDictKeys)
    (hstats : stats ≠ []) :
    (merge_data st stats fetched).hosts = sortHostsList c st.sort_reverse stats ∧
    (merge_data st stats fetched).sort_column = some c ∧
    (merge_data st stats fetched).sort_reverse = st.sort_reverse ∧
    (merge_data st stats fetched).selected_row = 0 := by
  cases hmode : st.current_mode <;>
    simp [merge_data, sort_data, hmode, hcol, hview, hstats, hkey]

theorem merge_data_no_sort (st : AppState) (stats : List (Str × Metrics))
    (fetched : List NodeRow) (hcol : st.sort_column = none) :
    (merge_data st stats fetched).selected_row = st.selected_row := by
  cases hmode : st.current_mode <;> cases hv : st.current_view <;>
    cases hsel : st.selected_host <;>
      simp [merge_data, hmode, hv, hsel, hcol]

/-- C4: after a poll cycle, an active sort key that exists in the new row
set's dict is reapplied with the same direction (never toggled): the visible
hosts are exactly the fresh rows sorted by the remembered key and direction,
and the remembered sort state is unchanged. -/
theorem c4_sort_persists_across_refresh (st : AppState)
    (stats : List (Str × Metrics)) (fetched : List NodeRow) (c : Str)
    (hview : st.current_view = ViewMode.main)
    (hcol : st.sort_column = some c)
    (hkey : c ∈ hostDictKeys)
    (hstats : stats ≠ []) :
    (merge_data st stats fetched).hosts = sortHostsList c st.sort_reverse stats ∧
    (merge_data st stats fetched).sort_column = some c ∧
    (merge_data st stats fetched).sort_reverse = st.sort_reverse :=
  have h := merge_data_active_sort st stats fetched c hview hcol hkey hstats
  ⟨h.1, h.2.1, h.2.2.1⟩

/-- C4 witness: a descending Ops/s sort survives a refresh with two fresh
rows, direction intact. -/
theorem c4_sort_persists_across_refresh_witness :
    (c4State.current_view = ViewMode.main ∧ c4State.sort_column = some opsStr ∧
     opsStr ∈ hostDictKeys ∧
     ([(aHost, opsOnly 5), (bHost, opsOnly 3)] : List (Str × Metrics)) ≠ []) ∧
    ((merge_data c4State [(aHost, opsOnly 5), (bHost, opsOnly 3)] []).hosts =
       sortHostsList opsStr c4State.sort_reverse [(aHost, opsOnly 5), (bHost, opsOnly 3)] ∧
     (merge_data c4State [(aHost, opsOnly 5), (bHost, opsOnly 3)] []).sort_column =
       some opsStr ∧
     (merge_data c4State [(aHost, opsOnly 5), (bHost, opsOnly 3)] []).sort_reverse =
       c4State.sort_reverse) :=
  ⟨⟨rfl, rfl, by decide, by decide⟩,
   c4_sort_persists_across_refresh c4State _ [] opsStr rfl rfl (by decide) (by decide)⟩

/-! ### Selection bounds across refresh -/

theorem insertLe_length {α : Type} (le : α → α → Bool) (x : α) :
    ∀ l : List α, (insertLe le x l).length = l.length + 1 := by
  intro l
  induction l with
  | nil => rfl
  | cons y ys ih => by_cases h : le y x <;> simp [insertLe, h, ih]

theorem pyStableSort_length {α : Type} (le : α → α → Bool) (l : List α) :
    (pyStableSort le l).length = l.length := by
  suffices h : ∀ acc : List α,
      (l.foldl (fun acc x => insertLe le x acc) acc).length = acc.length + l.length by
    simpa [pyStableSort] using h []
  induction l with
  | nil => intro acc; simp
  | cons x xs ih =>
    intro acc
    simp only [List.foldl_cons, ih, insertLe_length, List.length_cons]
    omega

/-- C7 as stated is false: a poll cycle that replaces the hosts map with fewer
rows does not clamp the selection — with three hosts, row 2 selected and no
active sort, a one-row refresh leaves `selected_row = 2`, outside
`[0, rowCount-1] = [0, 0]`. -/
theorem c7_counterexample :
    (merge_data c7State [(aHost, zeroMetrics)] []).hosts.length = 1 ∧
    (merge_data c7State [(aHost, zeroMetrics)] []).selected_row = 2 ∧
    ¬((merge_data c7State [(aHost, zeroMetrics)] []).selected_row ≤
        ((merge_data c7State [(aHost, zeroMetrics)] []).hosts.length : Int) - 1) := by
  refine ⟨by decide, by decide, by decide⟩

/-- C7 amended: `merge_data` never re-clamps the selection.  When an active
sort key is reapplied the selection is reset to 0, which lies in
`[0, rowCount-1]` since the fresh row set is non-empty; with no active sort
the wholesale replacement leaves `selected_row` exactly as it was, even if the
new row set is smaller. -/
theorem c7_amended_selection_after_refresh :
    (∀ (st : AppState) (stats : List (Str × Metrics)) (fetched : List NodeRow)
       (c : Str),
      st.current_view = ViewMode.main → st.sort_column = some c →
      c ∈ hostDictKeys → stats ≠ [] →
      (merge_data st stats fetched).selected_row = 0 ∧
      0 ≤ (merge_data st stats fetched).selected_row ∧
      (merge_data st stats fetched).selected_row ≤
        ((merge_data st stats fetched).hosts.length : Int) - 1) ∧
    (∀ (st : AppState) (stats : List (Str × Metrics)) (fetched : List NodeRow),
      st.sort_column = none →
      (merge_data st stats fetched).selected_row = st.selected_row) := by
  constructor
  · intro st stats fetched c hview hcol hkey hstats
    have h := merge_data_active_sort st stats fetched c hview hcol hkey hstats
    refine ⟨h.2.2.2, by rw [h.2.2.2], ?_⟩
    rw [h.2.2.2, h.1]
    have hlen : (sortHostsList c st.sort_reverse stats).length = stats.length :=
      pyStableSort_length _ _
    have hpos : 0 < stats.length := List.length_pos.mpr hstats
    rw [hlen]
    omega
  · intro st stats fetched hcol
    exact merge_data_no_sort st stats fetched hcol

/-- C7 amended witness: with an active sort and one fresh row, the selection
lands on 0, within bounds. -/
theorem c7_amended_selection_after_refresh_witness :
    (c7SortState.current_view = ViewMode.main ∧
     c7SortState.sort_column = some opsStr ∧ opsStr ∈ hostDictKeys ∧
     ([(aHost, zeroMetrics)] : List (Str × Metrics)) ≠ []) ∧
    ((merge_data c7SortState [(aHost, zeroMetrics)] []).selected_row = 0 ∧
     0 ≤ (merge_data c7SortState [(aHost, zeroMetrics)] []).selected_row ∧
     (merge_data c7SortState [(aHost, zeroMetrics)] []).selected_row ≤
       ((merge_data c7SortState [(aHost, zeroMetrics)] []).hosts.length : Int) - 1) :=
  ⟨⟨rfl, rfl, by decide, by decide⟩,
   c7_amended_selection_after_refresh.1 c7SortState _ _ opsStr rfl rfl
     (by decide) (by decide)⟩

/-! ### The sort-command grammar (`s+2`) -/

/-- C5 as stated is false: the sort-command grammar always carries an explicit
direction, so issuing `s+2` twice sorts ascending twice — the second issue
does not produce descending order (on hosts with distinct Ops/s, the
descending order differs from the order actually produced). -/
theorem c5_counterexample :
    (issueSortCommand c5State sPlus2).hosts =
      sortHostsList opsStr false c5State.hosts ∧
    (issueSortCommand (issueSortCommand c5State sPlus2) sPlus2).sort_reverse = false ∧
    (issueSortCommand (issueSortCommand c5State sPlus2) sPlus2).hosts =
      sortHostsList opsStr false (issueSortCommand c5State sPlus2).hosts ∧
    (issueSortCommand (issueSortCommand c5State sPlus2) sPlus2).hosts ≠
      sortHostsList opsStr true (issueSortCommand c5State sPlus2).hosts := by
  refine ⟨by decide, by decide, by decide, by decide⟩

theorem issueS2_step (st : AppState) (hview : st.current_view = ViewMode.main)
    (hslot : st.metric_columns.get? 1 = some opsStr) :
    (issueSortCommand st sPlus2).sort_reverse = false ∧
    (issueSortCommand st sPlus2).hosts = sortHostsList opsStr false st.hosts ∧
    (issueSortCommand st sPlus2).current_view = ViewMode.main ∧
    (issueSortCommand st sPlus2).metric_columns = st.metric_columns := by
  have hne : ¬(sPlus2 = ([] : Str)) := by decide
  have hhead : sPlus2.headD ' ' = 's' := by decide
  have hlen : ¬(sPlus2.length < 2) := by decide
  have hdir : sPlus2.getD 1 ' ' = '+' := by decide
  have hdrop : sPlus2.drop 2 = ['2'] := by decide
  have hint : pyInt ['2'] = some 2 := by decide
  obtain ⟨hlt, -⟩ := List.get?_eq_some.mp hslot
  have hlen2 : (2 : Int) ≤ (st.metric_columns.length : Int) := by omega
  have hget : st.metric_columns.getD ((2 - 1 : Int)).toNat [] = opsStr := by
    have h21 : ((2 - 1 : Int)).toNat = 1 := by decide
    rw [h21, List.getD_eq_getElem?_getD, ← List.get?_eq_getElem?, hslot]
    rfl
  have hhead2 : (sPlus2.head?).getD ' ' = 's' := by decide
  have hdir2 : sPlus2[1]?.getD ' ' = '+' := by decide
  have hslot2 : st.metric_columns[1]?.getD [] = opsStr := by
    rw [← List.get?_eq_getElem?, hslot]
    rfl
  by_cases hh : st.hosts = [] <;>
    simp [issueSortCommand, process_row_selection, process_sort_command,
      sort_data, cancelInput, sortHostsList, pyStableSort, hview, hh, hne,
      hhead, hlen, hdir, hdrop, hint, hget, hlen2, hhead2, hdir2, hslot2]

/-- C5 amended: when column slot 2 holds Ops/s, issuing `s+2` sorts the hosts
ascending by Ops/s with `sort_reverse = false`; issuing `s+2` again sorts
ascending again (the explicit `+` direction fully determines the order, no
toggling occurs on the command path). -/
theorem c5_amended_explicit_direction (st : AppState)
    (hview : st.current_view = ViewMode.main)
    (hslot : st.metric_columns.get? 1 = some opsStr) :
    (issueSortCommand st sPlus2).sort_reverse = false ∧
    (issueSortCommand st sPlus2).hosts = sortHostsList opsStr false st.hosts ∧
    (issueSortCommand (issueSortCommand st sPlus2) sPlus2).sort_reverse = false ∧
    (issueSortCommand (issueSortCommand st sPlus2) sPlus2).hosts =
      sortHostsList opsStr false (issueSortCommand st sPlus2).hosts := by
  have h1 := issueS2_step st hview hslot
  have h2 := issueS2_step (issueSortCommand st sPlus2) h1.2.2.1
    (by rw [h1.2.2.2]; exact hslot)
  exact ⟨h1.1, h1.2.1, h2.1, h2.2.1⟩

/-- C5 amended witness: the two-host state with default columns. -/
theorem c5_amended_explicit_direction_witness :
    (c5State.current_view = ViewMode.main ∧
     c5State.metric_columns.get? 1 = some opsStr) ∧
    ((issueSortCommand c5State sPlus2).sort_reverse = false ∧
     (issueSortCommand c5State sPlus2).hosts =
       sortHostsList opsStr false c5State.hosts ∧
     (issueSortCommand (issueSortCommand c5State sPlus2) sPlus2).sort_reverse = false ∧
     (issueSortCommand (issueSortCommand c5State sPlus2) sPlus2).hosts =
       sortHostsList opsStr false (issueSortCommand c5State sPlus2).hosts) :=
  ⟨⟨rfl, by decide⟩, c5_amended_explicit_direction c5State rfl (by decide)⟩

/-! ### Drill-down column snapshot and restore -/

theorem cycle_column_shape (st : AppState) (i : Nat) :
    cycle_column st i = st ∨
      ∃ mc, cycle_column st i = { st with metric_columns := mc } := by
  simp only [cycle_column]
  split
  · exact Or.inl rfl
  · split
    · exact Or.inl rfl
    · split
      · exact Or.inl rfl
      · exact Or.inr ⟨_, rfl⟩

theorem add_column_shape_node (st : AppState)
    (h : st.current_view = ViewMode.nodeDetails) :
    add_column st = st ∨
      ∃ mc, add_column st = { st with metric_columns := mc } := by
  simp only [add_column, h]
  split
  · exact Or.inl rfl
  · exact Or.inr ⟨_, rfl⟩

theorem remove_column_shape_node (st : AppState)
    (h : st.current_view = ViewMode.nodeDetails) :
    remove_column st = st ∨
      ∃ mc, remove_column st = { st with metric_columns := mc } := by
  simp only [remove_column, h]
  split
  · exact Or.inr ⟨_, rfl⟩
  · exact Or.inl rfl

theorem applyColumnOp_preserves_snapshot (st : AppState) (op : ColumnOp)
    (h : st.current_view = ViewMode.nodeDetails) :
    (applyColumnOp st op).main_view_metric_columns = st.main_view_metric_columns ∧
    (applyColumnOp st op).current_view = ViewMode.nodeDetails := by
  cases op with
  | cycle i =>
    rcases cycle_column_shape st i with he | ⟨mc, he⟩ <;>
      simp [applyColumnOp, he, h]
  | add =>
    rcases add_column_shape_node st h with he | ⟨mc, he⟩ <;>
      simp [applyColumnOp, he, h]
  | remove =>
    rcases remove_column_shape_node st h with he | ⟨mc, he⟩ <;>
      simp [applyColumnOp, he, h]

theorem applyColumnOps_preserves_snapshot (ops : List ColumnOp) :
    ∀ st : AppState, st.current_view = ViewMode.nodeDetails →
      (applyColumnOps st ops).main_view_metric_columns = st.main_view_metric_columns ∧
      (applyColumnOps st ops).current_view = ViewMode.nodeDetails := by
  induction ops with
  | nil => intro st h; exact ⟨rfl, h⟩
  | cons op ops ih =>
    intro st h
    have h1 := applyColumnOp_preserves_snapshot st op h
    have h2 := ih (applyColumnOp st op) h1.2
    exact ⟨h2.1.trans h1.1, h2.2⟩

/-- C9: entering drill-down snapshots the active column configuration, and
returning to the main view restores exactly that snapshot, whatever sequence
of cycle/add/remove operations ran while drilled down. -/
theorem c9_columns_restored_after_drilldown (st : AppState)
    (fetched : List NodeRow) (ops : List ColumnOp)
    (h0 : 0 ≤ st.selected_row)
    (h1 : st.selected_row < (st.hosts.length : Int)) :
    (return_to_main_view
        (applyColumnOps (drill_down_to_host st fetched) ops)).metric_columns =
      st.metric_columns := by
  have hguard : ¬((st.hosts.length : Int) ≤ st.selected_row) := not_le.mpr h1
  have hlt : st.selected_row.toNat < st.hosts.length := by omega
  have he : pyIndex st.hosts st.selected_row =
      some (st.hosts.get ⟨st.selected_row.toNat, hlt⟩) := by
    rw [pyIndex, if_pos h0]
    exact List.get?_eq_get hlt
  have hdrill :
      (drill_down_to_host st fetched).main_view_metric_columns = st.metric_columns ∧
      (drill_down_to_host st fetched).current_view = ViewMode.nodeDetails := by
    simp [drill_down_to_host, if_neg hguard, he]
  have hops := applyColumnOps_preserves_snapshot ops _ hdrill.2
  simp only [return_to_main_view]
  rw [hops.1, hdrill.1]

/-- C9 witness: from a one-host main view, drilling down, adding, removing and
cycling a column, then returning, restores the initial column set. -/
theorem c9_columns_restored_after_drilldown_witness :
    (0 ≤ c9State.selected_row) ∧
    (c9State.selected_row < (c9State.hosts.length : Int)) ∧
    (return_to_main_view
        (applyColumnOps (drill_down_to_host c9State [])
          [ColumnOp.add, ColumnOp.remove, ColumnOp.cycle 1])).metric_columns =
      c9State.metric_columns :=
  ⟨by decide, by decide,
   c9_columns_restored_after_drilldown c9State [] _ (by decide) (by decide)⟩

/-! ### Column-configuration invariants -/

theorem getD_mem_of_lt {α : Type} (l : List α) (n : Nat) (d : α)
    (h : n < l.length) : l.getD n d ∈ l := by
  rw [List.getD_eq_getElem?_getD, List.getElem?_eq_getElem h]
  exact List.getElem_mem h

theorem nodup_set {α : Type} (a : α) :
    ∀ (l : List α) (i : Nat), l.Nodup → a ∉ l → (l.set i a).Nodup := by
  intro l
  induction l with
  | nil => intro i _ _; simp
  | cons x xs ih =>
    intro i h ha
    cases i with
    | zero =>
      have h1 : a ∉ xs := fun hx => ha (List.mem_cons_of_mem _ hx)
      exact List.nodup_cons.mpr ⟨h1, (List.nodup_cons.mp h).2⟩
    | succ n =>
      obtain ⟨hx, hxs⟩ := List.nodup_cons.mp h
      have ha' : a ∉ xs := fun hh => ha (List.mem_cons_of_mem _ hh)
      refine List.nodup_cons.mpr ⟨?_, ih n hxs ha'⟩
      intro hmem
      rcases List.mem_or_eq_of_mem_set hmem with h1 | h1
      · exact hx h1
      · exact ha (by rw [h1]; exact List.mem_cons_self _ _)

theorem set_getD_self {α : Type} (d : α) :
    ∀ (l : List α) (i : Nat), i < l.length → l.set i (l.getD i d) = l := by
  intro l
  induction l with
  | nil => intro i h; simp at h
  | cons x xs ih =>
    intro i h
    cases i with
    | zero => simp
    | succ n =>
      have hn : n < xs.length := by simpa using h
      simp only [List.set, List.getD_cons_succ]
      rw [ih n hn]

theorem length_le_of_nodup_subset {α : Type} [DecidableEq α] (l L : List α)
    (h : l.Nodup) (hsub : ∀ x ∈ l, x ∈ L) : l.length ≤ L.length := by
  have h1 : l.toFinset.card = l.length := List.toFinset_card_of_nodup h
  have h2 : l.toFinset ⊆ L.toFinset := by
    intro x hx
    exact List.mem_toFinset.mpr (hsub x (List.mem_toFinset.mp hx))
  calc l.length = l.toFinset.card := h1.symm
    _ ≤ L.toFinset.card := Finset.card_le_card h2
    _ ≤ L.length := L.toFinset_card_le

theorem add_column_columns_inv (st : AppState) (h : ColumnsInv st) :
    ColumnsInv (add_column st) := by
  rw [add_column]
  cases havail : available_excluding st.metric_columns with
  | nil => exact h
  | cons m rest =>
    have hm : m ∈ available_excluding st.metric_columns := by
      rw [havail]
      exact List.mem_cons_self _ _
    obtain ⟨hmk, hmp⟩ := List.mem_filter.mp hm
    have hmp2 : m ∉ st.metric_columns ∧ m ≠ hostnameStr := by simpa using hmp
    have hnodup : (st.metric_columns ++ [m]).Nodup := by
      rw [List.nodup_append]
      refine ⟨h.1, List.nodup_singleton m, ?_⟩
      intro x hx hx1
      have : x = m := by simpa using hx1
      exact hmp2.1 (this ▸ hx)
    have hsub : ∀ x ∈ st.metric_columns ++ [m], x ∈ cyclable_metrics := by
      intro x hx
      rcases List.mem_append.mp hx with hx | hx
      · exact h.2 x hx
      · have hxm : x = m := by simpa using hx
        subst hxm
        exact List.mem_filter.mpr ⟨hmk, by simpa using hmp2.2⟩
    cases hv : st.current_view <;> exact ⟨hnodup, hsub⟩

theorem remove_column_columns_inv (st : AppState) (h : ColumnsInv st) :
    ColumnsInv (remove_column st) := by
  rw [remove_column]
  by_cases h0 : 0 < st.metric_columns.length
  · rw [if_pos h0]
    have hnodup : st.metric_columns.dropLast.Nodup :=
      h.1.sublist (List.dropLast_sublist _)
    have hsub : ∀ x ∈ st.metric_columns.dropLast, x ∈ cyclable_metrics :=
      fun x hx => h.2 x ((List.dropLast_sublist _).subset hx)
    cases hv : st.current_view <;> exact ⟨hnodup, hsub⟩
  · rw [if_neg h0]
    exact h

theorem cycle_column_cases (st : AppState) (i : Nat) :
    cycle_column st i = st ∨
    ∃ next, next ∈ cyclable_metrics ∧
      (next ∉ st.metric_columns ∨
        (i - 1 < st.metric_columns.length ∧
          next = st.metric_columns.getD (i - 1) [])) ∧
      cycle_column st i =
        { st with metric_columns := st.metric_columns.set (i - 1) next } := by
  simp only [cycle_column]
  by_cases h1 : st.metric_columns.length ≤ i - 1
  · rw [if_pos h1]
    exact Or.inl rfl
  · rw [if_neg h1, if_neg (by decide : ¬(cyclable_metrics = []))]
    split
    · exact Or.inl rfl
    · rename_i next hfind
      right
      refine ⟨next, ?_, ?_, rfl⟩
      · have hmem := List.mem_of_find?_eq_some hfind
        obtain ⟨j, hj, hnext⟩ := List.mem_map.mp hmem
        subst hnext
        apply getD_mem_of_lt
        have hlen : 0 < (cyclable_metrics.length : Int) := by decide
        have hnn := Int.emod_nonneg
          ((if st.metric_columns.getD (i - 1) [] ∈ cyclable_metrics then
              ((cyclable_metrics.indexOf (st.metric_columns.getD (i - 1) []) : Nat) : Int)
            else -1) + (j : Int) + 1) (by omega : ((cyclable_metrics.length : Int)) ≠ 0)
        have hub := Int.emod_lt_of_pos
          ((if st.metric_columns.getD (i - 1) [] ∈ cyclable_metrics then
              ((cyclable_metrics.indexOf (st.metric_columns.getD (i - 1) []) : Nat) : Int)
            else -1) + (j : Int) + 1) hlen
        omega
      · have hp := List.find?_some hfind
        rcases Bool.or_eq_true_iff.mp hp with hp1 | hp1
        · exact Or.inl (of_decide_eq_true hp1)
        · refine Or.inr ⟨by omega, ?_⟩
          simpa using hp1

theorem cycle_column_columns_inv (st : AppState) (i : Nat) (h : ColumnsInv st) :
    ColumnsInv (cycle_column st i) := by
  rcases cycle_column_cases st i with he | ⟨next, hmem, hcond, he⟩
  · rw [he]; exact h
  · rw [he]
    rcases hcond with hnot | ⟨hlt, heq⟩
    · constructor
      · exact nodup_set next st.metric_columns (i - 1) h.1 hnot
      · intro x hx
        rcases List.mem_or_eq_of_mem_set hx with h1 | h1
        · exact h.2 x h1
        · exact h1 ▸ hmem
    · rw [heq, set_getD_self _ _ _ hlt]
      exact h

theorem applyColumnOp_columns_inv (st : AppState) (op : ColumnOp)
    (h : ColumnsInv st) : ColumnsInv (applyColumnOp st op) := by
  cases op with
  | cycle i => exact cycle_column_columns_inv st i h
  | add => exact add_column_columns_inv st h
  | remove => exact remove_column_columns_inv st h

theorem applyColumnOps_columns_inv (ops : List ColumnOp) :
    ∀ st : AppState, ColumnsInv st → ColumnsInv (applyColumnOps st ops) := by
  induction ops with
  | nil => intro st h; exact h
  | cons op ops ih =>
    intro st h
    exact ih _ (applyColumnOp_columns_inv st op h)

theorem initial_columns_inv : ColumnsInv initialState := by
  constructor <;> decide

set_option maxRecDepth 4096 in
/-- C6 as stated is false: `add_column` has no 9-column cap — six `Add()`
operations from the initial six-column configuration reach all 12 catalog
metrics, exceeding 9. -/
theorem c6_counterexample :
    (applyColumnOps initialState (List.replicate 6 ColumnOp.add)).metric_columns.length
      = 12 ∧
    ¬((applyColumnOps initialState
        (List.replicate 6 ColumnOp.add)).metric_columns.length ≤ 9) := by
  refine ⟨by decide, by decide⟩

/-- C6 amended: under every sequence of cycle/add/remove operations from the
initial configuration, the column list never contains a duplicate and never
exceeds 12 entries (the size of the metric catalog — the code enforces no cap
of 9), and `Remove()` with zero columns is a no-op. -/
theorem c6_amended_column_bounds :
    (∀ ops : List ColumnOp,
      (applyColumnOps initialState ops).metric_columns.Nodup ∧
      (applyColumnOps initialState ops).metric_columns.length ≤ 12) ∧
    (∀ st : AppState,
      remove_column { st with metric_columns := [] } =
        { st with metric_columns := [] }) := by
  constructor
  · intro ops
    have h := applyColumnOps_columns_inv ops initialState initial_columns_inv
    refine ⟨h.1, ?_⟩
    have h12 : cyclable_metrics.length = 12 := by decide
    have hle := length_le_of_nodup_subset _ _ h.1 h.2
    omega
  · intro st
    rw [remove_column]
    simp

/-! ### Bandwidth coercion versus truncation (`_to_float_bandwidth`) -/

/-- C8 as stated is false: `_to_float_bandwidth` is not `_to_float` after
truncation at the first whitespace, because it lacks the character-stripping
fallback — on `"3x B/s"` it returns `0.0` while `_to_float` of the leading
token returns `3.0`. -/
theorem c8_counterexample :
    _to_float_bandwidth bw3x = 0 ∧
    _to_float (bw3x.takeWhile (fun c => !c.isWhitespace)) = 3 ∧
    _to_float_bandwidth bw3x ≠
      _to_float (bw3x.takeWhile (fun c => !c.isWhitespace)) := by
  refine ⟨by decide, by decide, by decide⟩

/-- C8 amended: both coercions are total by construction, and whenever the
input contains a space and its first `split()` token parses directly as a
float (or the token list is empty, the `IndexError` case),
`_to_float_bandwidth` agrees with `_to_float` on that token; the two differ
exactly when only the character-stripping fallback of `_to_float` would
rescue the token. -/
theorem c8_bandwidth_is_direct_parse_of_token (raw : Str)
    (hsp : (' ' : Char) ∈ raw)
    (hparse : (pyFloat ((pySplitWs raw).headD (['0'] : Str))).isSome = true) :
    _to_float_bandwidth raw = _to_float ((pySplitWs raw).headD (['0'] : Str)) := by
  have h1 : raw ≠ [] := by
    intro h
    rw [h] at hsp
    simp at hsp
  have h2 : raw ≠ ['0'] := by
    intro h
    rw [h] at hsp
    simp at hsp
  have hsent : isZeroSentinel raw = false := by
    simp [isZeroSentinel, h1, h2]
  cases hsplit : pySplitWs raw with
  | nil =>
    have hz : _to_float (['0'] : Str) = 0 := by decide
    simp [_to_float_bandwidth, hsent, hsp, hsplit, hz]
  | cons t rest =>
    rw [hsplit] at hparse
    have hq : ∃ q, pyFloat t = some q := by
      simpa [Option.isSome_iff_exists] using hparse
    obtain ⟨q, hq⟩ := hq
    by_cases hts : isZeroSentinel t = true
    · have ht : t = ['0'] := by
        rcases (by simpa [isZeroSentinel] using hts : t = [] ∨ t = ['0']) with h | h
        · rw [h] at hq
          have : pyFloat ([] : Str) = none := by decide
          rw [this] at hq
          cases hq
        · exact h
      subst ht
      have hq0 : q = 0 := by
        have hp0 : pyFloat (['0'] : Str) = some 0 := by decide
        rw [hp0] at hq
        exact ((Option.some.injEq _ _).mp hq).symm
      simp [_to_float_bandwidth, hsent, hsp, hsplit, hq, hq0, _to_float, hts]
    · simp [_to_float_bandwidth, hsent, hsp, hsplit, hq, _to_float, hts]

/-- C8 amended witness: `"3 B/s"` coerces to `3.0`, agreeing with `_to_float`
on its leading token. -/
theorem c8_bandwidth_is_direct_parse_of_token_witness :
    ((' ' : Char) ∈ bw3) ∧
    (pyFloat ((pySplitWs bw3).headD (['0'] : Str))).isSome = true ∧
    _to_float_bandwidth bw3 = _to_float ((pySplitWs bw3).headD (['0'] : Str)) ∧
    _to_float_bandwidth bw3 = 3 :=
  ⟨by decide, by decide,
   c8_bandwidth_is_direct_parse_of_token bw3 (by decide) (by decide), by decide⟩

end Wtop
